import Mathlib

/-!
Verification of the content-extraction engine of the `webscraper` repository
(`html_parser.py`, with helpers from `utils.py`).

The development shallowly embeds the Python code:
* the DOM tree handed over by the external parser is modelled by the mutual
  inductive `Node` / `NodeList` (tag name, attribute map, ordered children,
  text nodes);
* text handling (`clean_text`, `get_text`, `str.split`, `str.lower`, slicing)
  is modelled over `List Char`;
* Python floats are modelled exactly by `ℚ`; `round(x, n)` is modelled by
  round-half-to-even (`rheInt`, `pyRound2`), as Python's `round` does;
* the external Readability summarizer (`readability.Document`) is modelled as
  an oracle input `RdRaw` (title, short title, summary fragment), exactly the
  interface `_extract_main_content` consumes;
* fallible code returns `Option`.

Functions keep the names of the Python methods they embed (leading
underscores dropped, camel case).
-/

/-! ### Character and string utilities (modelling `utils.clean_text`, `str.split`, `str.lower`, `bs4.get_text`) -/

/-- Whitespace test used by Python's `str.split()` / `str.strip()`
(restricted to the ASCII whitespace characters that can occur here). -/
def isWS (c : Char) : Bool :=
  c == ' ' || c == '\t' || c == '\n' || c == '\r' || c == '\x0b' || c == '\x0c'

/-- Helper for `splitWS`: accumulates the current word (reversed) while
scanning. -/
def splitWSAux : List Char → List Char → List (List Char)
  | [], acc => if acc.isEmpty then [] else [acc.reverse]
  | c :: cs, acc =>
    if isWS c then
      if acc.isEmpty then splitWSAux cs [] else acc.reverse :: splitWSAux cs []
    else splitWSAux cs (c :: acc)

/-- Python `text.split()`: split on whitespace runs, dropping empty pieces. -/
def splitWS (l : List Char) : List (List Char) := splitWSAux l []

/-- Join a list of character strings with a separator (Python `sep.join`). -/
def joinWith (sep : List Char) : List (List Char) → List Char
  | [] => []
  | [x] => x
  | x :: y :: xs => x ++ sep ++ joinWith sep (y :: xs)

/-- Python `str.strip()`: drop leading and trailing whitespace. -/
def trimCh (l : List Char) : List Char :=
  ((l.dropWhile isWS).reverse.dropWhile isWS).reverse

/-- `utils.clean_text`: `' '.join(text.split())`, i.e. whitespace collapse. -/
def cleanCh (l : List Char) : List Char := joinWith [' '] (splitWS l)

/-- ASCII lower-casing of one character (Python `str.lower` on the ASCII
keywords and attribute values relevant here). -/
def lowerC (c : Char) : Char :=
  if 'A' ≤ c && c ≤ 'Z' then Char.ofNat (c.toNat + 32) else c

/-- Python `str.lower` on a character list. -/
def lowerCh (l : List Char) : List Char := l.map lowerC

/-- Boolean equality of character lists (kernel-friendly). -/
def chEq : List Char → List Char → Bool
  | [], [] => true
  | a :: as, b :: bs => a == b && chEq as bs
  | _, _ => false

/-- Boolean equality of strings through their character data. -/
def strEq (a b : String) : Bool := chEq a.data b.data

/-- Membership of a string in a list of strings, via `strEq`. -/
def strMem (s : String) : List String → Bool
  | [] => false
  | t :: ts => strEq s t || strMem s ts

/-- Needle-at-the-front test for character lists. -/
def startsWithCh : List Char → List Char → Bool
  | [], _ => true
  | _ :: _, [] => false
  | a :: as, b :: bs => a == b && startsWithCh as bs

/-- Python `needle in hay` substring containment on character lists. -/
def infixOfCh (needle : List Char) : List Char → Bool
  | [] => needle.isEmpty
  | b :: bs => startsWithCh needle (b :: bs) || infixOfCh needle bs

/-- Decimal digits of a natural number, most significant first; the first
argument is structural fuel (`n + 1` suffices). -/
def natDigits : Nat → Nat → List Char
  | 0, _ => []
  | fuel + 1, n =>
    if n = 0 then [] else natDigits fuel (n / 10) ++ [Char.ofNat (48 + n % 10)]

/-- Decimal rendering of a natural number (Python f-string interpolation of
the block index). -/
def natStr (n : Nat) : String :=
  if n = 0 then "0" else ⟨natDigits (n + 1) n⟩

/-- Python slicing plus ellipsis: `text[:280] + ('...' if len(text) > 280 else '')`
from `_build_block_info`. -/
def previewCh (l : List Char) : List Char :=
  l.take 280 ++ (if 280 < l.length then "...".data else [])

/-! ### Python `round` on exact rationals -/

/-- Round a rational to the nearest integer, ties to even — the behaviour of
Python's `round` (the floats of the source are modelled exactly by `ℚ`). -/
def rheInt (q : ℚ) : ℤ :=
  let f := ⌊q⌋
  if q - f < 1/2 then f
  else if 1/2 < q - f then f + 1
  else if f % 2 = 0 then f else f + 1

/-- Python `round(q, 2)`. -/
def pyRound2 (q : ℚ) : ℚ := rheInt (q * 100) / 100

/-- Python `round(q, 3)` (used for the stored `link_density`). -/
def pyRound3 (q : ℚ) : ℚ := rheInt (q * 1000) / 1000

/-! ### The DOM tree handed over by the external parser (`bs4` / `lxml`) -/

mutual
/-- A node of the parsed HTML tree: an element with tag name, attribute map
and ordered children, or a text node.  The `class` attribute is modelled as
its space-separated token string. -/
inductive Node where
  | elem (tag : String) (attrs : List (String × String)) (children : NodeList)
  | text (s : String)
/-- Ordered list of sibling nodes (mutual with `Node` so that all tree
recursions are structural and kernel-computable). -/
inductive NodeList where
  | nil
  | cons (n : Node) (ns : NodeList)
end

/-- Build a `NodeList` from a `List Node` (input convenience). -/
def nl : List Node → NodeList
  | [] => .nil
  | n :: ns => .cons n (nl ns)

/-- Tag name of a node (text nodes have none). -/
def tagOf : Node → String
  | .elem t _ _ => t
  | .text _ => ""

/-- Attribute map of a node. -/
def attrsOf : Node → List (String × String)
  | .elem _ a _ => a
  | .text _ => []

/-- Children of a node. -/
def childrenOf : Node → NodeList
  | .elem _ _ cs => cs
  | .text _ => .nil

/-- First binding of an attribute name in an attribute map (`bs4` attribute
dictionaries have unique keys). -/
def attrGet (attrs : List (String × String)) (name : String) : Option String :=
  match attrs with
  | [] => none
  | (k, v) :: rest => if strEq k name then some v else attrGet rest name

/-- Attribute lookup with a default (`attrs.get(name) or default`). -/
def attrGetD (attrs : List (String × String)) (name default : String) : String :=
  match attrGet attrs name with
  | some v => v
  | none => default

/-- Attribute lookup treating the Python-falsy empty string as absent
(`element.get(a) or element.get(b)` chains). -/
def attrGetNE (attrs : List (String × String)) (name : String) : Option String :=
  match attrGet attrs name with
  | some v => if v.data.isEmpty then none else some v
  | none => none

/-- Presence of an attribute (`attrs={'src': True}` filters in `bs4`). -/
def hasAttr (attrs : List (String × String)) (name : String) : Bool :=
  (attrGet attrs name).isSome

mutual
/-- Raw strings of all descendant text nodes, in document order. -/
def Node.textsCh : Node → List (List Char)
  | .text s => [s.data]
  | .elem _ _ cs => NodeList.textsCh cs
/-- Raw strings of all text nodes below a node list, in document order. -/
def NodeList.textsCh : NodeList → List (List Char)
  | .nil => []
  | .cons n ns => Node.textsCh n ++ NodeList.textsCh ns
end

/-- `bs4` `element.get_text()`: concatenation of all text strings. -/
def textRawCh (n : Node) : List Char := n.textsCh.flatten

/-- `bs4` `element.get_text(" ", strip=True)`: strip every string, drop the
empty ones, join with a single space. -/
def textSepCh (n : Node) : List Char :=
  joinWith [' '] ((n.textsCh.map trimCh).filter (fun l => !l.isEmpty))

mutual
/-- All element nodes (document order, an element before its descendants)
satisfying a predicate — `bs4` `find_all` over a whole subtree. -/
def Node.findAllP (p : Node → Bool) (n : Node) : List Node :=
  match n with
  | .text _ => []
  | .elem _ _ cs => (if p n then [n] else []) ++ NodeList.findAllP p cs
/-- `find_all` over a node list (for the soup root this enumerates every
element of the document in document order). -/
def NodeList.findAllP (p : Node → Bool) : NodeList → List Node
  | .nil => []
  | .cons n ns => Node.findAllP p n ++ NodeList.findAllP p ns
end

mutual
/-- First element (document order) satisfying a predicate — `bs4` `find` /
`select_one`. -/
def Node.findFirstP (p : Node → Bool) (n : Node) : Option Node :=
  match n with
  | .text _ => none
  | .elem _ _ cs => if p n then some n else NodeList.findFirstP p cs
/-- `find` over a node list. -/
def NodeList.findFirstP (p : Node → Bool) : NodeList → Option Node
  | .nil => none
  | .cons n ns =>
    match Node.findFirstP p n with
    | some m => some m
    | none => NodeList.findFirstP p ns
end

/-- Every element of the document (used to state tree invariants). -/
def allElemsL (ns : NodeList) : List Node := NodeList.findAllP (fun _ => true) ns

/-! ### Noise filter (`_prepare_content_soup`, `_should_skip_element`) -/

/-- `HTMLParser.NOISE_KEYWORDS`. -/
def NOISE_KEYWORDS : List String :=
  ["nav", "menu", "footer", "header", "subscribe", "metered", "paywall",
   "share", "social", "toolbar", "breadcrumbs", "breadcrumb", "cookie",
   "banner", "popup", "modal", "adv", "advert", "ads", "sponsor",
   "related", "recommend", "newsletter", "comment", "comments", "form-",
   "promo", "utility", "widget", "sidebar", "login", "signup", "consent",
   "gdpr", "tracking", "notification", "overlay", "player-controls",
   "gallery", "carousel", "slider", "tags", "taglist", "pagination"]

/-- `HTMLParser.ARTICLE_HINTS`. -/
def ARTICLE_HINTS : List String :=
  ["article", "story", "content", "body", "post", "entry", "main",
   "text", "read", "news", "detail"]

/-- Tag names removed unconditionally by the removal predicate. -/
def skipTagNames : List String := ["nav", "header", "footer", "aside"]

/-- ARIA roles removed unconditionally by the removal predicate. -/
def skipRoles : List String :=
  ["navigation", "banner", "complementary", "contentinfo", "search"]

/-- Attribute names collected into the keyword bag by
`_should_skip_element`. -/
def noiseAttrNames : List String :=
  ["class", "id", "name", "aria-label", "data-track-label",
   "data-component", "data-testid"]

/-- The lower-cased, non-empty values of the seven scanned attributes. -/
def collectAttrVals (attrs : List (String × String)) : List (List Char) :=
  noiseAttrNames.filterMap fun a =>
    match attrGet attrs a with
    | some v => if v.data.isEmpty then none else some (lowerCh v.data)
    | none => none

/-- The space-joined keyword bag scanned by `_should_skip_element`. -/
def attrBag (attrs : List (String × String)) : List Char :=
  joinWith [' '] (collectAttrVals attrs)

/-- `any(keyword in attrs for keyword in kws)`. -/
def containsAnyKw (kws : List String) (bag : List Char) : Bool :=
  kws.any fun k => infixOfCh k.data bag

/-- `_should_skip_element`, as a function of the element's tag and
attribute map (the only data it reads). -/
def shouldSkipElement (tag : String) (attrs : List (String × String)) : Bool :=
  if strMem tag skipTagNames then true
  else if strMem ⟨lowerCh (attrGetD attrs "role" "").data⟩ skipRoles then true
  else
    let vals := collectAttrVals attrs
    if vals.isEmpty then false
    else
      let bag := joinWith [' '] vals
      if containsAnyKw NOISE_KEYWORDS bag then
        if containsAnyKw ARTICLE_HINTS bag then false else true
      else false

/-- `_should_skip_element` on a node (non-`Tag` arguments return `False`). -/
def shouldSkipN : Node → Bool
  | .elem t a _ => shouldSkipElement t a
  | .text _ => false

/-- Tags decomposed unconditionally by the first pass of
`_prepare_content_soup`. -/
def removedTagNames : List String :=
  ["script", "style", "noscript", "iframe", "svg", "canvas"]

mutual
/-- Decompose every element whose tag and attribute map satisfy a predicate
(both removal passes of `_prepare_content_soup` have this shape; an element
below a removed ancestor is gone with it). -/
def Node.pruneBy (p : String → List (String × String) → Bool) : Node → Option Node
  | .text s => some (.text s)
  | .elem t a cs =>
    if p t a then none else some (.elem t a (NodeList.pruneBy p cs))
/-- Predicate-driven decomposition on a node list. -/
def NodeList.pruneBy (p : String → List (String × String) → Bool) : NodeList → NodeList
  | .nil => .nil
  | .cons n ns =>
    match Node.pruneBy p n with
    | some m => .cons m (NodeList.pruneBy p ns)
    | none => NodeList.pruneBy p ns
end

/-- First pass of `_prepare_content_soup`: decompose
script/style/noscript/iframe/svg/canvas elements. -/
def NodeList.pruneScripts (ns : NodeList) : NodeList :=
  NodeList.pruneBy (fun t _ => strMem t removedTagNames) ns

/-- Second pass of `_prepare_content_soup`: decompose every element on which
`_should_skip_element` holds. -/
def NodeList.pruneNoise (ns : NodeList) : NodeList :=
  NodeList.pruneBy (fun t a => shouldSkipElement t a) ns

/-- `_prepare_content_soup`: the noise-filtered view of the document. -/
def prepareContentSoup (doc : NodeList) : NodeList :=
  NodeList.pruneNoise (NodeList.pruneScripts doc)

/-! ### Candidate blocks (`_build_block_info`, `_score_block`, `_extract_content_blocks`) -/

/-- Tag-name membership predicate on nodes (text nodes never match). -/
def isTagIn (names : List String) (n : Node) : Bool := strMem (tagOf n) names

/-- Single-tag predicate on nodes. -/
def isTag (name : String) (n : Node) : Bool := strEq (tagOf n) name

/-- A candidate content block, as built by `_build_block_info`.  The
presentation-only `dom_path` string (never read by any later logic) is not
modelled; `html` keeps the element itself (`element.decode()` serialises it
and every consumer re-parses that string, which round-trips to the same
tree). -/
structure Block where
  id : String
  tag : String
  classes : String
  heading : String
  paragraphs : List String
  htmlNode : Option Node
  textPreview : String
  wordCount : Nat
  linkDensity : ℚ
  score : ℚ

/-- `_score_block`: `word_count * heading_bonus * paragraph_bonus * link_penalty`.
Python floats are modelled exactly by `ℚ`. -/
def scoreBlock (wordCount : Nat) (linkDensity : ℚ) (paragraphCount : Nat) (heading : String) : ℚ :=
  let headingBonus : ℚ := if heading.data.isEmpty then 1 else 5/4
  let paragraphBonus : ℚ := 1 + (min paragraphCount 5 : ℚ) * (1/10)
  let linkPenalty : ℚ := 1 - min linkDensity (9/10)
  (wordCount : ℚ) * headingBonus * paragraphBonus * linkPenalty

/-- Word count driving the `word_count < 40` guard of `_build_block_info`:
words of `clean_text(element.get_text(" ", strip=True))`. -/
def blockWordCount (e : Node) : Nat := (splitWS (cleanCh (textSepCh e))).length

/-- `_build_block_info`. -/
def buildBlockInfo (e : Node) (id : String) : Option Block :=
  let textC := cleanCh (textSepCh e)
  let wc := (splitWS textC).length
  if wc < 40 then none
  else
    let linkText := joinWith [' ']
      ((NodeList.findAllP (isTag "a") (childrenOf e)).map fun a => cleanCh (textSepCh a))
    let linkDensity : ℚ := (linkText.length : ℚ) / (max textC.length 1 : ℚ)
    let paragraphs := (NodeList.findAllP (isTag "p") (childrenOf e)).filterMap fun p =>
      let t := cleanCh (textRawCh p)
      if t.isEmpty then none else some (⟨t⟩ : String)
    let headingText := match NodeList.findFirstP (isTagIn ["h1", "h2", "h3"]) (childrenOf e) with
      | some h => (⟨cleanCh (textRawCh h)⟩ : String)
      | none => ""
    let score := scoreBlock wc linkDensity paragraphs.length headingText
    some { id := id, tag := tagOf e, classes := attrGetD (attrsOf e) "class" "",
           heading := headingText, paragraphs := paragraphs, htmlNode := some e,
           textPreview := ⟨previewCh textC⟩, wordCount := wc,
           linkDensity := pyRound3 linkDensity, score := pyRound2 score }

/-- Stable descending insertion by `score` (helper for `sortByScoreDesc`). -/
def insertDesc (b : Block) : List Block → List Block
  | [] => [b]
  | c :: cs => if c.score ≤ b.score then b :: c :: cs else c :: insertDesc b cs

/-- `candidates.sort(key=lambda item: item['score'], reverse=True)`: a stable
descending sort by score (Python's `list.sort` is stable; a stable insertion
sort realises the same function). -/
def sortByScoreDesc : List Block → List Block
  | [] => []
  | b :: bs => insertDesc b (sortByScoreDesc bs)

/-- Pair each list element with its index starting at `i`
(Python `enumerate`). -/
def idxFrom (i : Nat) : List α → List (Nat × α)
  | [] => []
  | a :: as => (i, a) :: idxFrom (i + 1) as

/-- Tags enumerated by `_extract_content_blocks`. -/
def structuralTagNames : List String := ["article", "main", "section", "div"]

/-- `_extract_content_blocks`: enumerate structural elements of the filtered
soup, re-check the noise predicate, build blocks, sort by score descending,
keep the top 10. -/
def extractContentBlocks (soup : NodeList) : List Block :=
  let found := NodeList.findAllP (isTagIn structuralTagNames) soup
  let candidates := (idxFrom 0 found).filterMap fun p =>
    if shouldSkipN p.2 then none else buildBlockInfo p.2 ("block_" ++ natStr p.1)
  (sortByScoreDesc candidates).take 10

/-! ### Schema strategy (`_extract_schema_block`) -/

/-- CSS selector `[itemprop="articleBody"]`. -/
def selItemprop (n : Node) : Bool :=
  match attrGet (attrsOf n) "itemprop" with
  | some v => strEq v "articleBody"
  | none => false

/-- CSS selector `[itemtype*="Article"]`. -/
def selItemtype (n : Node) : Bool :=
  match attrGet (attrsOf n) "itemtype" with
  | some v => infixOfCh "Article".data v.data
  | none => false

/-- CSS selector `[role="main"]`. -/
def selRoleMain (n : Node) : Bool :=
  match attrGet (attrsOf n) "role" with
  | some v => strEq v "main"
  | none => false

/-- CSS class selector (matches a whitespace-separated class token). -/
def hasClassToken (tok : String) (n : Node) : Bool :=
  (splitWS (attrGetD (attrsOf n) "class" "").data).any fun t => chEq t tok.data

/-- The fixed selector list probed by `_extract_schema_block`, in order. -/
def schemaSelectors : List (Node → Bool) :=
  [selItemprop, selItemtype, isTag "article", selRoleMain,
   hasClassToken "article-body", hasClassToken "story__content",
   hasClassToken "article__content"]

/-- The probing loop of `_extract_schema_block`: the first selector whose
first match is not noise and yields a valid block wins. -/
def schemaProbe (soup : NodeList) : Nat → List (Node → Bool) → Option Block
  | _, [] => none
  | idx, sel :: rest =>
    match NodeList.findFirstP sel soup with
    | some e =>
      if shouldSkipN e then schemaProbe soup (idx + 1) rest
      else
        match buildBlockInfo e ("schema_" ++ natStr idx) with
        | some b => some b
        | none => schemaProbe soup (idx + 1) rest
    | none => schemaProbe soup (idx + 1) rest

/-- `_extract_schema_block`. -/
def extractSchemaBlock (soup : NodeList) : Option Block :=
  schemaProbe soup 0 schemaSelectors

/-- The candidate list handed to the arbiter by `parse_html` (lines 103-106):
the ranked blocks, with the schema block — when present — inserted at
position 0 after ranking and truncation. -/
def candidateBlocks (soup : NodeList) : List Block :=
  match extractSchemaBlock soup with
  | some sb => sb :: extractContentBlocks soup
  | none => extractContentBlocks soup

/-! ### Readability strategy wrapper (`_extract_main_content`) -/

/-- Output of the external Readability summarizer (`readability.Document`):
best-effort title, short title, and the summary HTML fragment, already
parsed.  `_extract_main_content` consumes exactly this interface; a failing
summarizer is the `none` case of the `Option RdRaw` input. -/
structure RdRaw where
  title : String
  shortTitle : String
  summaryHtml : NodeList

/-- The non-empty readability result dictionary built by
`_extract_main_content`. -/
structure RContent where
  title : String
  shortTitle : String
  summaryHtml : NodeList
  text : String
  paragraphs : List String
  wordCount : Nat
  readingTime : ℚ
  confidence : ℚ

/-- `_estimate_reading_time`. -/
def estimateReadingTime (wordCount : Nat) : ℚ :=
  if wordCount = 0 then 0 else pyRound2 (max ((wordCount : ℚ) / 200) (1/10))

/-- `_extract_main_content`: wrap the summarizer output; an empty or failed
summary yields `none` (the Python empty dictionary). -/
def extractMainContent (raw : Option RdRaw) : Option RContent :=
  match raw with
  | none => none
  | some r =>
    let paragraphs := (NodeList.findAllP (isTagIn ["p", "li"]) r.summaryHtml).filterMap fun p =>
      let t := cleanCh (textRawCh p)
      if t.isEmpty then none else some (⟨t⟩ : String)
    let textC := trimCh (joinWith "\n\n".data (paragraphs.map String.data))
    if textC.isEmpty then none
    else
      let wc := (splitWS textC).length
      some { title := ⟨cleanCh r.title.data⟩, shortTitle := ⟨cleanCh r.shortTitle.data⟩,
             summaryHtml := r.summaryHtml, text := ⟨textC⟩, paragraphs := paragraphs,
             wordCount := wc, readingTime := estimateReadingTime wc,
             confidence := min (95/100) (6/10 + (wc : ℚ) / 1500) }

/-! ### Content arbiter (`_choose_main_content`) -/

/-- The arbitration winner: the union of the fields the three sources
produce, as consumed by `_build_article_section`. -/
structure MainContent where
  source : String
  title : String
  text : String
  paragraphs : List String
  wordCount : Nat
  readingTime : ℚ
  confidence : ℚ
  summaryHtml : Option NodeList := none
  htmlNode : Option Node := none
  score : Option ℚ := none

/-- The readability dictionary as returned by the arbiter.  The Python
`setdefault('title', fallback_title)` is a no-op here: the dictionary built
by `_extract_main_content` always carries a `title` key. -/
def rcontentToMain (r : RContent) : MainContent :=
  { source := "readability", title := r.title, text := r.text,
    paragraphs := r.paragraphs, wordCount := r.wordCount,
    readingTime := r.readingTime, confidence := r.confidence,
    summaryHtml := some r.summaryHtml }

/-- The heuristic winner built by the arbiter from the top-ranked block. -/
def heuristicMain (b : Block) (fallbackTitle : String) : MainContent :=
  let joined := trimCh (joinWith "\n\n".data (b.paragraphs.map String.data))
  let textC := if joined.isEmpty then b.textPreview.data else joined
  let wc := if b.wordCount ≠ 0 then b.wordCount else (splitWS textC).length
  { source := "heuristic",
    title := if b.heading.data.isEmpty then fallbackTitle else b.heading,
    text := ⟨textC⟩, paragraphs := b.paragraphs, wordCount := wc,
    readingTime := estimateReadingTime wc,
    confidence := min (85/100) (4/10 + min (b.score / 1500) (45/100)),
    htmlNode := b.htmlNode, score := some b.score }

/-- The empty, unknown-source content object of the final fall-through. -/
def unknownMain (fallbackTitle : String) : MainContent :=
  { source := "unknown", title := fallbackTitle, text := "", paragraphs := [],
    wordCount := 0, readingTime := 0, confidence := 1/5 }

/-- `_choose_main_content`.  Mirrors the source control flow: a non-empty
readability result with 80+ words wins; else the first candidate block; else
the readability result itself when non-empty (`return readability_content
or {...}`); else the empty unknown object. -/
def chooseMainContent : Option RContent → List Block → String → MainContent
  | some r, blocks, fb =>
    if 80 ≤ r.wordCount then rcontentToMain r
    else
      match blocks with
      | b :: _ => heuristicMain b fb
      | [] => rcontentToMain r
  | none, blocks, fb =>
    match blocks with
    | b :: _ => heuristicMain b fb
    | [] => unknownMain fb

/-! ### Link, media and metadata derivation, article assembly -/

/-- External `urllib.parse.urljoin`, modelled abstractly: an absolute
reference (one containing "://") is returned unchanged, a relative one is
attached to the base.  No verified claim depends on the exact resolution
rules. -/
def urljoin (base rel : String) : String :=
  if infixOfCh "://".data rel.data then rel else ⟨base.data ++ rel.data⟩

/-- Helper for `netloc`: the characters after the first "://". -/
def afterScheme : List Char → Option (List Char)
  | [] => none
  | c :: cs =>
    if startsWithCh "://".data (c :: cs) then some (cs.drop 2) else afterScheme cs

/-- External `urllib.parse.urlparse(url).netloc`, modelled abstractly: the
host part between "://" and the next slash. -/
def netloc (url : String) : String :=
  match afterScheme url.data with
  | some rest => ⟨rest.takeWhile fun c => !(c == '/')⟩
  | none => ""

/-- One extracted link record of `_extract_links`. -/
structure Link where
  text : String
  href : String
  isExternal : Bool
  title : String

/-- `_extract_links`: the Python loop appends each `<a href=...>` anchor and
breaks once `limit` entries are collected, i.e. it keeps the first `limit`
anchors in document order. -/
def extractLinks (soup : NodeList) (base : String) (limit : Nat) : List Link :=
  ((NodeList.findAllP (fun n => strEq (tagOf n) "a" && hasAttr (attrsOf n) "href") soup).map
    fun a =>
      let href := attrGetD (attrsOf a) "href" ""
      let absUrl := urljoin base href
      { text := ⟨cleanCh (textRawCh a)⟩, href := absUrl,
        isExternal := !strEq (netloc base) (netloc absUrl),
        title := attrGetD (attrsOf a) "title" "" }).take limit

/-- `main_content.get('summary_html') or main_content.get('html')`: the HTML
fragment of the chosen main content.  The Python values are HTML strings
that every consumer re-parses; re-parsing the serialised fragment yields the
fragment itself. -/
def mainFragment (m : MainContent) : Option NodeList :=
  match m.summaryHtml with
  | some f => some f
  | none =>
    match m.htmlNode with
    | some n => some (.cons n .nil)
    | none => none

/-- `_extract_links_from_main`. -/
def extractLinksFromMain (m : MainContent) (base : String) : List Link :=
  match mainFragment m with
  | some f => extractLinks f base 40
  | none => []

/-- A gallery image of `_extract_article_media`. -/
structure GalleryImage where
  src : String
  alt : String
  title : String

/-- The article media record. -/
structure Media where
  heroImage : Option String
  gallery : List GalleryImage
  videos : List String

/-- Dictionary lookup in the meta-tag map, treating the Python-falsy empty
string as absent (`meta.get(a) or meta.get(b)` chains). -/
def metaGetNE (meta : List (String × String)) (k : String) : Option String :=
  attrGetNE meta k

/-- First non-empty value among several meta keys (a Python `or` chain). -/
def metaFirstNE (meta : List (String × String)) : List String → Option String
  | [] => none
  | k :: ks =>
    match metaGetNE meta k with
    | some v => some v
    | none => metaFirstNE meta ks

/-- The `soup.find('iframe', attrs={'src': True})` predicate. -/
def iframeSrcPred (n : Node) : Bool :=
  strEq (tagOf n) "iframe" && hasAttr (attrsOf n) "src"

/-- `_extract_article_media`. -/
def extractArticleMedia (m : MainContent) (meta : List (String × String))
    (base : String) (soup : NodeList) : Media :=
  let hero := metaFirstNE meta ["og:image", "twitter:image", "image_thumb_src"]
  let heroImage := hero.map (urljoin base)
  let gallery :=
    match mainFragment m with
    | some frag =>
      (NodeList.findAllP (isTag "img") frag).filterMap fun img =>
        let srcOpt := match attrGetNE (attrsOf img) "src" with
          | some v => some v
          | none => attrGetNE (attrsOf img) "data-src"
        match srcOpt with
        | some src =>
          some ({ src := urljoin base src,
                  alt := ⟨cleanCh (attrGetD (attrsOf img) "alt" "").data⟩,
                  title := ⟨cleanCh (attrGetD (attrsOf img) "title" "").data⟩ } : GalleryImage)
        | none => none
    | none => []
  let fragVideos :=
    match mainFragment m with
    | some frag =>
      (NodeList.findAllP (isTag "video") frag).filterMap fun v =>
        let srcOpt := match NodeList.findFirstP (isTag "source") (childrenOf v) with
          | some s => attrGet (attrsOf s) "src"
          | none => attrGet (attrsOf v) "src"
        match srcOpt with
        | some src => if src.data.isEmpty then none else some (urljoin base src)
        | none => none
    | none => []
  let videos := fragVideos ++
    (match NodeList.findFirstP iframeSrcPred soup with
     | some ifr => [urljoin base (attrGetD (attrsOf ifr) "src" "")]
     | none => [])
  { heroImage := heroImage, gallery := gallery.take 5, videos := videos.take 3 }

/-- Insert-or-overwrite into the meta dictionary (Python dict assignment). -/
def upsert (m : List (String × String)) (k v : String) : List (String × String) :=
  match m with
  | [] => [(k, v)]
  | (k', v') :: rest => if strEq k' k then (k, v) :: rest else (k', v') :: upsert rest k v

/-- `_extract_meta`: name/content, property/content and charset meta tags,
later tags overriding earlier ones with the same key. -/
def extractMeta (doc : NodeList) : List (String × String) :=
  (NodeList.findAllP (isTag "meta") doc).foldl
    (fun m tag =>
      match attrGetNE (attrsOf tag) "name", attrGetNE (attrsOf tag) "content" with
      | some n, some c => upsert m n c
      | _, _ =>
        match attrGetNE (attrsOf tag) "property", attrGetNE (attrsOf tag) "content" with
        | some p, some c => upsert m p c
        | _, _ =>
          match attrGetNE (attrsOf tag) "charset" with
          | some ch => upsert m "charset" ch
          | none => m)
    []

/-- The article body sub-record of `_build_article_section`. -/
structure Body where
  text : String
  paragraphs : List String
  wordCount : Nat
  readingTime : ℚ
  source : String
  html : Option NodeList

/-- The article stats sub-record of `_build_article_section`. -/
structure Stats where
  confidence : ℚ
  paragraphCount : Nat
  hasMedia : Bool
  hasLinks : Bool

/-- The assembled article record (the fields the verified claims touch; the
author/date/keyword/subtitle metadata and the list/table extraction are
independent derivers not modelled here). -/
structure Article where
  title : String
  excerpt : String
  body : Body
  media : Media
  links : List Link
  stats : Stats

/-- `_build_article_section` (title, excerpt, body, media, links, stats). -/
def buildArticleSection (rd : Option RContent) (blocks : List Block)
    (fallbackTitle : String) (meta : List (String × String))
    (contentSoup : NodeList) (baseUrl : String) : Article :=
  let m := chooseMainContent rd blocks fallbackTitle
  let media := extractArticleMedia m meta baseUrl contentSoup
  let excerptValue := match metaFirstNE meta ["description", "og:description"] with
    | some v => v
    | none => match m.paragraphs with
      | p :: _ => p
      | [] => ""
  let articleLinks := extractLinksFromMain m baseUrl
  let body : Body :=
    { text := ⟨trimCh m.text.data⟩, paragraphs := m.paragraphs,
      wordCount := m.wordCount, readingTime := m.readingTime,
      source := m.source, html := mainFragment m }
  let stats : Stats :=
    { confidence := pyRound2 m.confidence,
      paragraphCount := body.paragraphs.length,
      hasMedia := (match media.heroImage with
        | some h => !h.data.isEmpty
        | none => false) || !media.videos.isEmpty,
      hasLinks := !articleLinks.isEmpty }
  let title := if m.title.data.isEmpty then
      (match metaFirstNE meta ["og:title", "twitter:title", "title"] with
       | some t => t
       | none => fallbackTitle)
    else m.title
  { title := title, excerpt := ⟨cleanCh excerptValue.data⟩, body := body,
    media := media, links := articleLinks, stats := stats }

/-- The single text child of an element, if it has exactly one child and
that child is a string (`bs4` `.string`). -/
def singleString : Node → Option String
  | .elem _ _ (.cons (.text s) .nil) => some s
  | _ => none

/-- The page title `clean_text(soup.title.string) if soup.title else ""`. -/
def pageTitle (doc : NodeList) : String :=
  match NodeList.findFirstP (isTag "title") doc with
  | some t =>
    match singleString t with
    | some s => ⟨cleanCh s.data⟩
    | none => ""
  | none => ""

/-- The article-building part of `parse_html`: prepare the filtered soup,
run the three strategies, arbitrate and assemble.  `doc` is the parsed raw
document, `rdRaw` the output of the external Readability summarizer on the
same document. -/
def parseHtmlArticle (doc : NodeList) (rdRaw : Option RdRaw) (url : String) : Article :=
  let contentSoup := prepareContentSoup doc
  let rd := extractMainContent rdRaw
  let blocks := candidateBlocks contentSoup
  buildArticleSection rd blocks (pageTitle doc) (extractMeta doc) contentSoup url

/-! ### Example documents used by witnesses and counterexamples -/

/-- A forty-word text (each word one character). -/
def exText40 : String :=
  "w w w w w w w w w w w w w w w w w w w w w w w w w w w w w w w w w w w w w w w w"

/-- A plain forty-word `<div>`. -/
def exDiv40 : Node := Node.elem "div" [] (nl [Node.text exText40])

/-- A document with ten forty-word structural candidates, the first of which
also matches the schema probe `[itemprop="articleBody"]`. -/
def exDoc11 : NodeList :=
  nl [Node.elem "div" [("itemprop", "articleBody")] (nl [Node.text exText40]),
      exDiv40, exDiv40, exDiv40, exDiv40, exDiv40, exDiv40, exDiv40, exDiv40,
      exDiv40]

/-- A readability summary fragment holding a single fifty-word paragraph. -/
def exFrag50 : NodeList :=
  nl [Node.elem "p" [] (nl [Node.text
    "v v v v v v v v v v v v v v v v v v v v v v v v v v v v v v v v v v v v v v v v v v v v v v v v v v"])]

/-- A readability oracle output wrapping `exFrag50`. -/
def exRdRaw50 : Option RdRaw := some { title := "T", shortTitle := "T", summaryHtml := exFrag50 }

/-- A fifty-word readability content record. -/
def exR50 : RContent :=
  { title := "T", shortTitle := "T", summaryHtml := .nil, text := "v",
    paragraphs := ["v"], wordCount := 50, readingTime := 1/4, confidence := 19/30 }

/-- A two-hundred-word readability content record. -/
def exR200 : RContent :=
  { title := "T", shortTitle := "T", summaryHtml := .nil, text := "t",
    paragraphs := ["t"], wordCount := 200, readingTime := 1, confidence := 95/100 }

/-- A heuristic block with an arbitrarily high score. -/
def exBigBlock : Block :=
  { id := "block_0", tag := "div", classes := "", heading := "H",
    paragraphs := ["p"], htmlNode := none, textPreview := "p",
    wordCount := 1000000, linkDensity := 0, score := 1000000000 }

/-- A structural element far below the forty-word bar. -/
def exSmallDiv : Node := Node.elem "div" [] (nl [Node.text "too short"])

/-- A document whose only element is far below the forty-word bar. -/
def exSmallDoc : NodeList := nl [exSmallDiv]

/-- A document containing a page-level `<iframe>` with a `src` attribute. -/
def exIframeDoc : NodeList :=
  nl [Node.elem "div" [] (nl [Node.elem "iframe" [("src", "https://v.example/x")] (nl [])])]

/-! ### Tree lemmas -/

/-- All element nodes of a single subtree. -/
def allElemsN (n : Node) : List Node := Node.findAllP (fun _ => true) n

/-- Unfolding equation for `allElemsN` on an element. -/
theorem allElemsN_elem (t : String) (a : List (String × String)) (cs : NodeList) :
    allElemsN (Node.elem t a cs) = Node.elem t a cs :: NodeList.findAllP (fun _ => true) cs := by
  simp [allElemsN, Node.findAllP]

/-- Unfolding equation for `allElemsN` on a text node. -/
theorem allElemsN_text (s : String) : allElemsN (Node.text s) = [] := rfl

/-- Unfolding equation for `allElemsL` on a cons cell. -/
theorem allElemsL_cons (n : Node) (ns : NodeList) :
    allElemsL (NodeList.cons n ns) = allElemsN n ++ allElemsL ns := rfl

/-- Unfolding equation for `allElemsL` on the empty list. -/
theorem allElemsL_nil : allElemsL NodeList.nil = [] := rfl

/-- The element list of a subtree, seen from `allElemsL`. -/
theorem allElemsL_eq (ns : NodeList) :
    allElemsL ns = NodeList.findAllP (fun _ => true) ns := rfl

mutual
/-- A `find_all` hit satisfies the predicate and is an element of the
subtree. -/
theorem Node.mem_findAllP :
    ∀ (p : Node → Bool) (n x : Node), x ∈ Node.findAllP p n →
      p x = true ∧ x ∈ allElemsN n
  | p, .text s, x, hx => by simp [Node.findAllP] at hx
  | p, .elem t a cs, x, hx => by
    simp only [Node.findAllP, List.mem_append] at hx
    rw [allElemsN_elem]
    rcases hx with hx | hx
    · by_cases hp : p (Node.elem t a cs) = true
      · rw [if_pos hp] at hx
        simp only [List.mem_singleton] at hx
        subst hx
        exact ⟨hp, List.mem_cons_self _ _⟩
      · rw [if_neg hp] at hx
        simp at hx
    · have h2 := NodeList.mem_findAllP_list p cs x hx
      exact ⟨h2.1, List.mem_cons_of_mem _ h2.2⟩
/-- A `find_all` hit below a node list satisfies the predicate and is an
element of the list. -/
theorem NodeList.mem_findAllP_list :
    ∀ (p : Node → Bool) (ns : NodeList) (x : Node), x ∈ NodeList.findAllP p ns →
      p x = true ∧ x ∈ allElemsL ns
  | p, .nil, x, hx => by simp [NodeList.findAllP] at hx
  | p, .cons n ns, x, hx => by
    simp only [NodeList.findAllP, List.mem_append] at hx
    rw [allElemsL_cons]
    rcases hx with hx | hx
    · have h2 := Node.mem_findAllP p n x hx
      exact ⟨h2.1, List.mem_append_left _ h2.2⟩
    · have h2 := NodeList.mem_findAllP_list p ns x hx
      exact ⟨h2.1, List.mem_append_right _ h2.2⟩
end

mutual
/-- A `find` hit satisfies the predicate and is an element of the subtree. -/
theorem Node.findFirstP_eq_some :
    ∀ (p : Node → Bool) (n x : Node), Node.findFirstP p n = some x →
      p x = true ∧ x ∈ allElemsN n
  | p, .text s, x, h => by simp [Node.findFirstP] at h
  | p, .elem t a cs, x, h => by
    simp only [Node.findFirstP] at h
    rw [allElemsN_elem]
    by_cases hp : p (Node.elem t a cs) = true
    · rw [if_pos hp] at h
      injection h with h
      subst h
      exact ⟨hp, List.mem_cons_self _ _⟩
    · rw [if_neg hp] at h
      have h2 := NodeList.findFirstP_eq_some_list p cs x h
      exact ⟨h2.1, List.mem_cons_of_mem _ h2.2⟩
/-- A `find` hit below a node list satisfies the predicate and is an element
of the list. -/
theorem NodeList.findFirstP_eq_some_list :
    ∀ (p : Node → Bool) (ns : NodeList) (x : Node), NodeList.findFirstP p ns = some x →
      p x = true ∧ x ∈ allElemsL ns
  | p, .nil, x, h => by simp [NodeList.findFirstP] at h
  | p, .cons n ns, x, h => by
    simp only [NodeList.findFirstP] at h
    rw [allElemsL_cons]
    cases h1 : Node.findFirstP p n with
    | some m =>
      rw [h1] at h
      injection h with h
      rw [← h]
      have h2 := Node.findFirstP_eq_some p n m h1
      exact ⟨h2.1, List.mem_append_left _ h2.2⟩
    | none =>
      rw [h1] at h
      have h2 := NodeList.findFirstP_eq_some_list p ns x h
      exact ⟨h2.1, List.mem_append_right _ h2.2⟩
end

mutual
/-- If no element of the subtree satisfies the predicate, `find` misses. -/
theorem Node.findFirstP_eq_none :
    ∀ (p : Node → Bool) (n : Node), (∀ x ∈ allElemsN n, p x = false) →
      Node.findFirstP p n = none
  | p, .text s, _ => by simp [Node.findFirstP]
  | p, .elem t a cs, hall => by
    simp only [Node.findFirstP]
    have hself : p (Node.elem t a cs) = false := by
      apply hall
      rw [allElemsN_elem]
      exact List.mem_cons_self _ _
    rw [if_neg (by simp [hself])]
    apply NodeList.findFirstP_eq_none_list
    intro x hx
    apply hall
    rw [allElemsN_elem]
    exact List.mem_cons_of_mem _ hx
/-- If no element below a node list satisfies the predicate, `find`
misses. -/
theorem NodeList.findFirstP_eq_none_list :
    ∀ (p : Node → Bool) (ns : NodeList), (∀ x ∈ allElemsL ns, p x = false) →
      NodeList.findFirstP p ns = none
  | p, .nil, _ => by simp [NodeList.findFirstP]
  | p, .cons n ns, hall => by
    simp only [NodeList.findFirstP]
    have hn : Node.findFirstP p n = none := by
      apply Node.findFirstP_eq_none
      intro x hx
      apply hall
      rw [allElemsL_cons]
      exact List.mem_append_left _ hx
    rw [hn]
    apply NodeList.findFirstP_eq_none_list
    intro x hx
    apply hall
    rw [allElemsL_cons]
    exact List.mem_append_right _ hx
end

mutual
/-- Every element surviving a `pruneBy` pass fails the removal predicate. -/
theorem Node.pruneBy_survivors :
    ∀ (p : String → List (String × String) → Bool) (n m x : Node),
      Node.pruneBy p n = some m → x ∈ allElemsN m →
      p (tagOf x) (attrsOf x) = false
  | p, .text s, m, x, h, hx => by
    simp only [Node.pruneBy, Option.some.injEq] at h
    subst h
    simp [allElemsN_text] at hx
  | p, .elem t a cs, m, x, h, hx => by
    simp only [Node.pruneBy] at h
    by_cases hp : p t a = true
    · rw [if_pos hp] at h
      exact absurd h (by simp)
    · rw [if_neg hp] at h
      injection h with h
      subst h
      rw [allElemsN_elem] at hx
      rcases List.mem_cons.1 hx with hx | hx
      · subst hx
        simpa [tagOf, attrsOf] using hp
      · exact NodeList.pruneBy_survivors_list p cs x hx
/-- Every element surviving a `pruneBy` pass over a node list fails the
removal predicate. -/
theorem NodeList.pruneBy_survivors_list :
    ∀ (p : String → List (String × String) → Bool) (ns : NodeList) (x : Node),
      x ∈ allElemsL (NodeList.pruneBy p ns) → p (tagOf x) (attrsOf x) = false
  | p, .nil, x, hx => by simp [NodeList.pruneBy, allElemsL_nil] at hx
  | p, .cons n ns, x, hx => by
    simp only [NodeList.pruneBy] at hx
    cases h : Node.pruneBy p n with
    | none =>
      rw [h] at hx
      exact NodeList.pruneBy_survivors_list p ns x hx
    | some m =>
      rw [h] at hx
      rw [allElemsL_cons] at hx
      rcases List.mem_append.1 hx with hx | hx
      · exact Node.pruneBy_survivors p n m x h hx
      · exact NodeList.pruneBy_survivors_list p ns x hx
end

mutual
/-- `pruneBy` is idempotent at the node level. -/
theorem Node.pruneBy_idem :
    ∀ (p : String → List (String × String) → Bool) (n m : Node),
      Node.pruneBy p n = some m → Node.pruneBy p m = some m
  | p, .text s, m, h => by
    simp only [Node.pruneBy, Option.some.injEq] at h
    subst h
    simp [Node.pruneBy]
  | p, .elem t a cs, m, h => by
    simp only [Node.pruneBy] at h
    by_cases hp : p t a = true
    · rw [if_pos hp] at h
      exact absurd h (by simp)
    · rw [if_neg hp] at h
      injection h with h
      subst h
      simp only [Node.pruneBy]
      rw [if_neg hp, NodeList.pruneBy_idem_list p cs]
/-- `pruneBy` is idempotent on node lists. -/
theorem NodeList.pruneBy_idem_list :
    ∀ (p : String → List (String × String) → Bool) (ns : NodeList),
      NodeList.pruneBy p (NodeList.pruneBy p ns) = NodeList.pruneBy p ns
  | p, .nil => rfl
  | p, .cons n ns => by
    simp only [NodeList.pruneBy]
    cases h : Node.pruneBy p n with
    | none =>
      exact NodeList.pruneBy_idem_list p ns
    | some m =>
      simp only [NodeList.pruneBy]
      rw [Node.pruneBy_idem p n m h, NodeList.pruneBy_idem_list p ns]
end

mutual
/-- Two `pruneBy` passes commute at the node level. -/
theorem Node.pruneBy_comm :
    ∀ (p q : String → List (String × String) → Bool) (n : Node),
      (Node.pruneBy q n).bind (Node.pruneBy p) = (Node.pruneBy p n).bind (Node.pruneBy q)
  | p, q, .text s => by simp [Node.pruneBy]
  | p, q, .elem t a cs => by
    simp only [Node.pruneBy]
    by_cases hq : q t a = true
    · rw [if_pos hq]
      by_cases hp : p t a = true
      · rw [if_pos hp]
        rfl
      · rw [if_neg hp]
        simp only [Option.none_bind, Option.some_bind, Node.pruneBy]
        rw [if_pos hq]
    · rw [if_neg hq]
      by_cases hp : p t a = true
      · rw [if_pos hp]
        simp only [Option.none_bind, Option.some_bind, Node.pruneBy]
        rw [if_pos hp]
      · rw [if_neg hp]
        simp only [Option.some_bind, Node.pruneBy]
        rw [if_neg hp, if_neg hq, NodeList.pruneBy_comm_list p q cs]
/-- Two `pruneBy` passes commute on node lists. -/
theorem NodeList.pruneBy_comm_list :
    ∀ (p q : String → List (String × String) → Bool) (ns : NodeList),
      NodeList.pruneBy p (NodeList.pruneBy q ns) = NodeList.pruneBy q (NodeList.pruneBy p ns)
  | p, q, .nil => rfl
  | p, q, .cons n ns => by
    have hn := Node.pruneBy_comm p q n
    simp only [NodeList.pruneBy]
    cases h1 : Node.pruneBy q n with
    | none =>
      rw [h1] at hn
      cases h2 : Node.pruneBy p n with
      | none =>
        exact NodeList.pruneBy_comm_list p q ns
      | some m' =>
        rw [h2] at hn
        simp only [Option.none_bind, Option.some_bind] at hn
        simp only [NodeList.pruneBy]
        rw [← hn]
        exact NodeList.pruneBy_comm_list p q ns
    | some m =>
      rw [h1] at hn
      cases h2 : Node.pruneBy p n with
      | none =>
        rw [h2] at hn
        simp only [Option.none_bind, Option.some_bind] at hn
        simp only [NodeList.pruneBy]
        rw [hn]
        exact NodeList.pruneBy_comm_list p q ns
      | some m' =>
        rw [h2] at hn
        simp only [Option.some_bind] at hn
        simp only [NodeList.pruneBy]
        rw [hn]
        cases h3 : Node.pruneBy q m' with
        | none =>
          exact NodeList.pruneBy_comm_list p q ns
        | some k =>
          rw [NodeList.pruneBy_comm_list p q ns]
end

/-! ### Corollaries about the prepared soup -/

/-- `shouldSkipN` reads only the tag and attribute map of a node. -/
theorem shouldSkipN_eq (x : Node) :
    shouldSkipN x = shouldSkipElement (tagOf x) (attrsOf x) := by
  cases x with
  | elem t a cs => rfl
  | text s =>
    show false = shouldSkipElement "" []
    decide

/-- Every element of the prepared soup fails the noise predicate. -/
theorem prepare_survivors (ns : NodeList) :
    ∀ x ∈ allElemsL (prepareContentSoup ns), shouldSkipN x = false := by
  intro x hx
  rw [shouldSkipN_eq]
  exact NodeList.pruneBy_survivors_list _ _ x hx

/-- Every element of the prepared soup has a tag outside the unconditionally
removed set (script/style/noscript/iframe/svg/canvas). -/
theorem prepare_no_removed_tags (ns : NodeList) :
    ∀ x ∈ allElemsL (prepareContentSoup ns), strMem (tagOf x) removedTagNames = false := by
  intro x hx
  unfold prepareContentSoup NodeList.pruneNoise NodeList.pruneScripts at hx
  rw [NodeList.pruneBy_comm_list] at hx
  exact NodeList.pruneBy_survivors_list _ _ x hx

/-- `_prepare_content_soup` is idempotent. -/
theorem prepare_idem (ns : NodeList) :
    prepareContentSoup (prepareContentSoup ns) = prepareContentSoup ns := by
  unfold prepareContentSoup NodeList.pruneNoise NodeList.pruneScripts
  rw [NodeList.pruneBy_comm_list (fun t _ => strMem t removedTagNames)
        (fun t a => shouldSkipElement t a),
      NodeList.pruneBy_idem_list, NodeList.pruneBy_idem_list]

/-- The prepared soup contains no iframe with a `src` attribute: the first
pass of `_prepare_content_soup` decomposes every `<iframe>`. -/
theorem prepare_no_iframe (ns : NodeList) :
    NodeList.findFirstP iframeSrcPred (prepareContentSoup ns) = none := by
  apply NodeList.findFirstP_eq_none_list
  intro x hx
  have h := prepare_no_removed_tags ns x hx
  simp only [removedTagNames, strMem, Bool.or_eq_false_iff] at h
  simp [iframeSrcPred, h.2.2.2.1]

/-! ### List helpers -/

/-- The payload of an `idxFrom` pair is a member of the underlying list. -/
theorem mem_idxFrom : ∀ (l : List α) (i : Nat) (p : Nat × α), p ∈ idxFrom i l → p.2 ∈ l
  | [], _, _, hp => by simp [idxFrom] at hp
  | a :: as, i, p, hp => by
    simp only [idxFrom, List.mem_cons] at hp
    rcases hp with hp | hp
    · subst hp
      exact List.mem_cons_self _ _
    · exact List.mem_cons_of_mem _ (mem_idxFrom as (i + 1) p hp)

/-- Membership in a descending insertion. -/
theorem mem_insertDesc : ∀ (x b : Block) (l : List Block), x ∈ insertDesc b l → x = b ∨ x ∈ l
  | x, b, [], hx => by simpa [insertDesc] using hx
  | x, b, c :: cs, hx => by
    simp only [insertDesc] at hx
    by_cases hc : c.score ≤ b.score
    · rw [if_pos hc] at hx
      rw [List.mem_cons] at hx
      exact hx
    · rw [if_neg hc] at hx
      rcases List.mem_cons.1 hx with hx | hx
      · exact Or.inr (hx ▸ List.mem_cons_self _ _)
      · rcases mem_insertDesc x b cs hx with hx | hx
        · exact Or.inl hx
        · exact Or.inr (List.mem_cons_of_mem _ hx)

/-- The stable sort permutes: members of the output come from the input. -/
theorem mem_sortByScoreDesc : ∀ (x : Block) (l : List Block), x ∈ sortByScoreDesc l → x ∈ l
  | x, [], hx => by simpa [sortByScoreDesc] using hx
  | x, b :: bs, hx => by
    simp only [sortByScoreDesc] at hx
    rcases mem_insertDesc x b _ hx with hx | hx
    · exact hx ▸ List.mem_cons_self _ _
    · exact List.mem_cons_of_mem _ (mem_sortByScoreDesc x bs hx)

/-! ### Arithmetic lemmas about `rheInt` / `pyRound2` -/

/-- Rounding never goes below the floor. -/
theorem rheInt_ge_floor (q : ℚ) : ⌊q⌋ ≤ rheInt q := by
  simp only [rheInt]
  split_ifs <;> omega

/-- Rounding a value at most an integer stays at most that integer. -/
theorem rheInt_le (q : ℚ) (k : ℤ) (h : q ≤ (k : ℚ)) : rheInt q ≤ k := by
  have hf : ⌊q⌋ ≤ k := by
    calc ⌊q⌋ ≤ ⌊(k : ℚ)⌋ := Int.floor_le_floor h
    _ = k := Int.floor_intCast k
  simp only [rheInt]
  split_ifs with h1 h2 h3
  · exact hf
  · have hfq : (⌊q⌋ : ℚ) ≤ q - 1/2 := by linarith [not_lt.1 h1]
    have hq : (⌊q⌋ : ℚ) < (k : ℚ) := by linarith
    have : ⌊q⌋ < k := by exact_mod_cast hq
    omega
  · exact hf
  · have hfq : (⌊q⌋ : ℚ) ≤ q - 1/2 := by linarith [not_lt.1 h1]
    have hq : (⌊q⌋ : ℚ) < (k : ℚ) := by linarith
    have : ⌊q⌋ < k := by exact_mod_cast hq
    omega

/-- Rounding a value at least an integer stays at least that integer. -/
theorem rheInt_ge (q : ℚ) (k : ℤ) (h : (k : ℚ) ≤ q) : k ≤ rheInt q := by
  refine le_trans ?_ (rheInt_ge_floor q)
  exact Int.le_floor.2 h

/-- `pyRound2` upper bound at a hundredth. -/
theorem pyRound2_le (q : ℚ) (k : ℤ) (h : q ≤ (k : ℚ) / 100) : pyRound2 q ≤ (k : ℚ) / 100 := by
  have h1 : q * 100 ≤ (k : ℚ) := by linarith
  have h2 : rheInt (q * 100) ≤ k := rheInt_le _ _ h1
  have h3 : (rheInt (q * 100) : ℚ) ≤ (k : ℚ) := by exact_mod_cast h2
  simp only [pyRound2]
  linarith

/-- `pyRound2` lower bound at a hundredth. -/
theorem pyRound2_ge (q : ℚ) (k : ℤ) (h : (k : ℚ) / 100 ≤ q) : (k : ℚ) / 100 ≤ pyRound2 q := by
  have h1 : (k : ℚ) ≤ q * 100 := by linarith
  have h2 : k ≤ rheInt (q * 100) := rheInt_ge _ _ h1
  have h3 : (k : ℚ) ≤ (rheInt (q * 100) : ℚ) := by exact_mod_cast h2
  simp only [pyRound2]
  linarith

/-- `pyRound2` preserves non-negativity. -/
theorem pyRound2_nonneg (q : ℚ) (h : 0 ≤ q) : 0 ≤ pyRound2 q := by
  have := pyRound2_ge q 0 (by simpa using h)
  simpa using this

/-! ### Score lemmas -/

/-- The block score is non-negative (the link penalty saturates at 0.9 and
never drives the product negative). -/
theorem scoreBlock_nonneg (wc : Nat) (ld : ℚ) (pc : Nat) (hd : String) :
    0 ≤ scoreBlock wc ld pc hd := by
  simp only [scoreBlock]
  have h1 : (0 : ℚ) ≤ (wc : ℚ) := by positivity
  have hb : (0 : ℚ) ≤ (if hd.data.isEmpty then (1 : ℚ) else 5/4) := by split <;> norm_num
  have hp : (0 : ℚ) ≤ 1 + (min pc 5 : ℚ) * (1/10) := by positivity
  have hpen : (0 : ℚ) ≤ 1 - min ld (9/10) := by
    have := min_le_right ld (9/10 : ℚ)
    linarith
  exact mul_nonneg (mul_nonneg (mul_nonneg h1 hb) hp) hpen

/-- Monotone non-increase of the score in link density (C6 helper). -/
theorem scoreBlock_antitone (wc : Nat) (pc : Nat) (hd : String) (ld₁ ld₂ : ℚ)
    (h : ld₁ ≤ ld₂) : scoreBlock wc ld₂ pc hd ≤ scoreBlock wc ld₁ pc hd := by
  simp only [scoreBlock]
  have h1 : (0 : ℚ) ≤ (wc : ℚ) := by positivity
  have hb : (0 : ℚ) ≤ (if hd.data.isEmpty then (1 : ℚ) else 5/4) := by split <;> norm_num
  have hp : (0 : ℚ) ≤ 1 + (min pc 5 : ℚ) * (1/10) := by positivity
  have hpen : 1 - min ld₂ (9/10) ≤ 1 - min ld₁ (9/10) := by
    have := min_le_min h (le_refl (9/10 : ℚ))
    linarith
  exact mul_le_mul_of_nonneg_left hpen (mul_nonneg (mul_nonneg h1 hb) hp)

/-- Saturation of the link penalty at density 0.9 (C6 helper). -/
theorem scoreBlock_saturates (wc : Nat) (pc : Nat) (hd : String) (ld : ℚ)
    (h : 9/10 ≤ ld) : scoreBlock wc ld pc hd = scoreBlock wc (9/10) pc hd := by
  simp only [scoreBlock, min_eq_right h, min_self]

/-! ### Block construction lemmas -/

/-- `_build_block_info` on an element below 40 words produces nothing. -/
theorem buildBlockInfo_none (e : Node) (id : String) (h : blockWordCount e < 40) :
    buildBlockInfo e id = none := by
  simp only [buildBlockInfo]
  rw [if_pos]
  exact h

/-- Every block `_build_block_info` produces carries its 40-plus word count
and a non-negative score. -/
theorem buildBlockInfo_some (e : Node) (id : String) (b : Block)
    (h : buildBlockInfo e id = some b) : 40 ≤ b.wordCount ∧ 0 ≤ b.score := by
  simp only [buildBlockInfo] at h
  by_cases hlt : (splitWS (cleanCh (textSepCh e))).length < 40
  · rw [if_pos hlt] at h
    cases h
  · rw [if_neg hlt] at h
    injection h with h
    subst h
    exact ⟨Nat.le_of_not_lt hlt, pyRound2_nonneg _ (scoreBlock_nonneg _ _ _ _)⟩

/-- The probing loop only ever returns blocks built by `_build_block_info`. -/
theorem schemaProbe_some (soup : NodeList) :
    ∀ (i : Nat) (sels : List (Node → Bool)) (b : Block), schemaProbe soup i sels = some b →
      ∃ e id, buildBlockInfo e id = some b
  | i, [], b, h => by simp [schemaProbe] at h
  | i, sel :: rest, b, h => by
    simp only [schemaProbe] at h
    cases h1 : NodeList.findFirstP sel soup with
    | none =>
      rw [h1] at h
      exact schemaProbe_some soup (i + 1) rest b h
    | some e =>
      rw [h1] at h
      simp only [] at h
      by_cases hs : shouldSkipN e = true
      · rw [if_pos hs] at h
        exact schemaProbe_some soup (i + 1) rest b h
      · rw [if_neg hs] at h
        cases h2 : buildBlockInfo e ("schema_" ++ natStr i) with
        | none =>
          rw [h2] at h
          simp only [] at h
          exact schemaProbe_some soup (i + 1) rest b h
        | some b' =>
          rw [h2] at h
          simp only [] at h
          injection h with h
          subst h
          exact ⟨e, _, h2⟩

/-- Every member of the ranked candidate list was built by
`_build_block_info`. -/
theorem mem_extractContentBlocks (soup : NodeList) (b : Block)
    (h : b ∈ extractContentBlocks soup) : ∃ e id, buildBlockInfo e id = some b := by
  simp only [extractContentBlocks] at h
  have h1 := List.take_subset _ _ h
  have h2 := mem_sortByScoreDesc _ _ h1
  obtain ⟨p, hp, hpb⟩ := List.mem_filterMap.1 h2
  by_cases hs : shouldSkipN p.2 = true
  · rw [if_pos hs] at hpb
    cases hpb
  · rw [if_neg hs] at hpb
    exact ⟨p.2, _, hpb⟩

/-- Every member of the candidate list handed to the arbiter was built by
`_build_block_info`. -/
theorem mem_candidateBlocks (soup : NodeList) (b : Block)
    (h : b ∈ candidateBlocks soup) : ∃ e id, buildBlockInfo e id = some b := by
  simp only [candidateBlocks] at h
  cases h1 : extractSchemaBlock soup with
  | none =>
    rw [h1] at h
    exact mem_extractContentBlocks soup b h
  | some sb =>
    rw [h1] at h
    rcases List.mem_cons.1 h with h | h
    · subst h
      exact schemaProbe_some soup 0 schemaSelectors b h1
    · exact mem_extractContentBlocks soup b h

/-- The ranked candidate list never exceeds ten entries. -/
theorem extractContentBlocks_length (soup : NodeList) :
    (extractContentBlocks soup).length ≤ 10 := by
  simp only [extractContentBlocks]
  exact List.length_take_le _ _

/-- With fewer than 40 words in every element, the scorer yields nothing. -/
theorem extractContentBlocks_nil (soup : NodeList)
    (h : ∀ x ∈ allElemsL soup, blockWordCount x < 40) :
    extractContentBlocks soup = [] := by
  simp only [extractContentBlocks]
  have hfm : (idxFrom 0 (NodeList.findAllP (isTagIn structuralTagNames) soup)).filterMap
      (fun p => if shouldSkipN p.2 then none
                else buildBlockInfo p.2 ("block_" ++ natStr p.1)) = [] := by
    rw [List.filterMap_eq_nil_iff]
    intro p hp
    by_cases hs : shouldSkipN p.2 = true
    · rw [if_pos hs]
    · rw [if_neg hs]
      apply buildBlockInfo_none
      have hmem := mem_idxFrom _ _ _ hp
      have := NodeList.mem_findAllP_list _ _ _ hmem
      exact h _ this.2
  rw [hfm]
  rfl

/-- With fewer than 40 words in every element, every schema probe fails. -/
theorem schemaProbe_none (soup : NodeList)
    (h : ∀ x ∈ allElemsL soup, blockWordCount x < 40) :
    ∀ (i : Nat) (sels : List (Node → Bool)), schemaProbe soup i sels = none
  | i, [] => by simp [schemaProbe]
  | i, sel :: rest => by
    simp only [schemaProbe]
    cases h1 : NodeList.findFirstP sel soup with
    | none =>
      exact schemaProbe_none soup h (i + 1) rest
    | some e =>
      have hmem := NodeList.findFirstP_eq_some_list _ _ _ h1
      simp only []
      by_cases hs : shouldSkipN e = true
      · rw [if_pos hs]
        exact schemaProbe_none soup h (i + 1) rest
      · rw [if_neg hs]
        rw [buildBlockInfo_none e _ (h e hmem.2)]
        exact schemaProbe_none soup h (i + 1) rest
    termination_by _ sels => sels

/-- With fewer than 40 words in every element, the candidate list handed to
the arbiter is empty. -/
theorem candidateBlocks_nil (soup : NodeList)
    (h : ∀ x ∈ allElemsL soup, blockWordCount x < 40) :
    candidateBlocks soup = [] := by
  simp only [candidateBlocks, extractSchemaBlock]
  rw [schemaProbe_none soup h 0 schemaSelectors]
  exact extractContentBlocks_nil soup h

/-! ### Arbiter lemmas -/

/-- Tier 1: a readability result with 80-plus words always wins. -/
theorem chooseMain_readability (r : RContent) (blocks : List Block) (fb : String)
    (h : 80 ≤ r.wordCount) : chooseMainContent (some r) blocks fb = rcontentToMain r := by
  simp only [chooseMainContent]
  rw [if_pos h]

/-- Tier 2 with no readability result: the first block wins. -/
theorem chooseMain_heuristic_none (b : Block) (rest : List Block) (fb : String) :
    chooseMainContent none (b :: rest) fb = heuristicMain b fb := rfl

/-- Tier 2 with a thin readability result: the first block wins. -/
theorem chooseMain_heuristic_some (r : RContent) (b : Block) (rest : List Block)
    (fb : String) (h : r.wordCount < 80) :
    chooseMainContent (some r) (b :: rest) fb = heuristicMain b fb := by
  simp only [chooseMainContent]
  rw [if_neg (Nat.not_le.2 h)]

/-- Tier 3 with a thin readability result and no blocks: the readability
dictionary itself is returned (`return readability_content or ...`). -/
theorem chooseMain_rd_fallback (r : RContent) (fb : String) (h : r.wordCount < 80) :
    chooseMainContent (some r) [] fb = rcontentToMain r := by
  simp only [chooseMainContent]
  rw [if_neg (Nat.not_le.2 h)]

/-- Tier 3 with nothing at all: the empty unknown-source object. -/
theorem chooseMain_unknown (fb : String) :
    chooseMainContent none [] fb = unknownMain fb := rfl

/-- Exhaustive case split on the arbiter's outcome. -/
theorem chooseMain_cases (rd : Option RContent) (blocks : List Block) (fb : String) :
    (∃ r, rd = some r ∧ chooseMainContent rd blocks fb = rcontentToMain r) ∨
    (∃ b, b ∈ blocks ∧ chooseMainContent rd blocks fb = heuristicMain b fb) ∨
    (rd = none ∧ blocks = [] ∧ chooseMainContent rd blocks fb = unknownMain fb) := by
  cases rd with
  | none =>
    cases blocks with
    | nil => exact Or.inr (Or.inr ⟨rfl, rfl, rfl⟩)
    | cons b rest => exact Or.inr (Or.inl ⟨b, List.mem_cons_self _ _, rfl⟩)
  | some r =>
    by_cases h : 80 ≤ r.wordCount
    · exact Or.inl ⟨r, rfl, chooseMain_readability r blocks fb h⟩
    · cases blocks with
      | nil => exact Or.inl ⟨r, rfl, chooseMain_rd_fallback r fb (Nat.not_le.1 h)⟩
      | cons b rest =>
        exact Or.inr (Or.inl ⟨b, List.mem_cons_self _ _,
          chooseMain_heuristic_some r b rest fb (Nat.not_le.1 h)⟩)

/-- Source tag and confidence of the three arbiter outcomes. -/
theorem mainContent_fields (r : RContent) (b : Block) (fb : String) :
    (rcontentToMain r).source = "readability" ∧
    (rcontentToMain r).confidence = r.confidence ∧
    (heuristicMain b fb).source = "heuristic" ∧
    (heuristicMain b fb).confidence
      = min (85/100) (4/10 + min (b.score / 1500) (45/100)) ∧
    (unknownMain fb).source = "unknown" ∧
    (unknownMain fb).confidence = 1/5 := by
  refine ⟨rfl, rfl, ?_, ?_, rfl, rfl⟩ <;> simp [heuristicMain]

/-- The confidence formula of every non-empty readability result. -/
theorem extractMainContent_confidence (raw : Option RdRaw) (r : RContent)
    (h : extractMainContent raw = some r) :
    r.confidence = min (95/100) (6/10 + (r.wordCount : ℚ) / 1500) := by
  cases raw with
  | none => cases h
  | some rr =>
    simp only [extractMainContent] at h
    by_cases he : (trimCh (joinWith "\n\n".data
        (((NodeList.findAllP (isTagIn ["p", "li"]) rr.summaryHtml).filterMap fun p =>
          let t := cleanCh (textRawCh p)
          if t.isEmpty then none else some (⟨t⟩ : String)).map String.data))).isEmpty = true
    · rw [if_pos he] at h
      cases h
    · rw [if_neg he] at h
      injection h with h
      subst h
      rfl

/-- Readability confidence bounds: always within [0.6, 0.95]. -/
theorem rcontent_confidence_bounds (raw : Option RdRaw) (r : RContent)
    (h : extractMainContent raw = some r) :
    6/10 ≤ r.confidence ∧ r.confidence ≤ 95/100 := by
  rw [extractMainContent_confidence raw r h]
  constructor
  · apply le_min
    · norm_num
    · have : (0 : ℚ) ≤ (r.wordCount : ℚ) / 1500 := by positivity
      linarith
  · exact min_le_left _ _

/-- Heuristic confidence bounds: within [0.4, 0.85] for a non-negative
score. -/
theorem heuristic_confidence_bounds (s : ℚ) (hs : 0 ≤ s) :
    2/5 ≤ min (85/100) (4/10 + min (s / 1500) (45/100)) ∧
    min (85/100) (4/10 + min (s / 1500) (45/100)) ≤ 85/100 := by
  constructor
  · apply le_min
    · norm_num
    · have h1 : (0 : ℚ) ≤ s / 1500 := by positivity
      have h2 : (0 : ℚ) ≤ min (s / 1500) (45/100) := le_min h1 (by norm_num)
      linarith
  · exact min_le_left _ _

/-! ### Projections of the assembled article -/

/-- The stats confidence is the rounded arbiter confidence. -/
theorem buildArticle_confidence (rd : Option RContent) (blocks : List Block)
    (fb : String) (meta : List (String × String)) (soup : NodeList) (url : String) :
    (buildArticleSection rd blocks fb meta soup url).stats.confidence
      = pyRound2 (chooseMainContent rd blocks fb).confidence := by
  simp only [buildArticleSection]

/-- The body source is the arbiter's source tag. -/
theorem buildArticle_source (rd : Option RContent) (blocks : List Block)
    (fb : String) (meta : List (String × String)) (soup : NodeList) (url : String) :
    (buildArticleSection rd blocks fb meta soup url).body.source
      = (chooseMainContent rd blocks fb).source := by
  simp only [buildArticleSection]

/-- The article media record of the assembled article. -/
theorem buildArticle_media (rd : Option RContent) (blocks : List Block)
    (fb : String) (meta : List (String × String)) (soup : NodeList) (url : String) :
    (buildArticleSection rd blocks fb meta soup url).media
      = extractArticleMedia (chooseMainContent rd blocks fb) meta url soup := by
  simp only [buildArticleSection]

/-- The article links of the assembled article. -/
theorem buildArticle_links (rd : Option RContent) (blocks : List Block)
    (fb : String) (meta : List (String × String)) (soup : NodeList) (url : String) :
    (buildArticleSection rd blocks fb meta soup url).links
      = extractLinksFromMain (chooseMainContent rd blocks fb) url := by
  simp only [buildArticleSection]

/-- Gallery and video caps of `_extract_article_media`. -/
theorem extractArticleMedia_caps (m : MainContent) (meta : List (String × String))
    (base : String) (soup : NodeList) :
    (extractArticleMedia m meta base soup).gallery.length ≤ 5 ∧
    (extractArticleMedia m meta base soup).videos.length ≤ 3 := by
  simp only [extractArticleMedia]
  exact ⟨List.length_take_le _ _, List.length_take_le _ _⟩

/-- Link cap of `_extract_links` / `_extract_links_from_main`. -/
theorem extractLinksFromMain_cap (m : MainContent) (base : String) :
    (extractLinksFromMain m base).length ≤ 40 := by
  simp only [extractLinksFromMain]
  cases mainFragment m with
  | none => simp
  | some f =>
    simp only [extractLinks]
    exact List.length_take_le _ _

/-- Unfolding of the article pipeline. -/
theorem parseHtmlArticle_eq (doc : NodeList) (rdRaw : Option RdRaw) (url : String) :
    parseHtmlArticle doc rdRaw url
      = buildArticleSection (extractMainContent rdRaw)
          (candidateBlocks (prepareContentSoup doc)) (pageTitle doc)
          (extractMeta doc) (prepareContentSoup doc) url := by
  simp only [parseHtmlArticle]

/-! ### The claims -/

set_option maxRecDepth 10000

/-- C1: waterfall priority of the content arbiter — whenever the readability
strategy produced a non-empty result with word count at least 80, the
arbiter returns exactly the readability output (tagged `readability`),
whatever the candidate blocks are, in particular however high a heuristic
block scores.  (The `setdefault('title', fallback_title)` of the source is a
no-op: the readability dictionary always carries a `title` key, so the
returned content keeps the readability title.) -/
theorem claim_C1_waterfall (r : RContent) (blocks : List Block) (fb : String)
    (h : 80 ≤ r.wordCount) :
    chooseMainContent (some r) blocks fb = rcontentToMain r ∧
    (chooseMainContent (some r) blocks fb).source = "readability" := by
  have hc := chooseMain_readability r blocks fb h
  exact ⟨hc, by rw [hc]; rfl⟩

/-- Witness for C1 at a concrete 200-word readability result against a
block of score 1000000000. -/
theorem claim_C1_waterfall_witness :
    chooseMainContent (some exR200) [exBigBlock] "fb" = rcontentToMain exR200 :=
  (claim_C1_waterfall exR200 [exBigBlock] "fb" (by decide)).1

/-- C2 counterexample: an empty document (empty candidate list) whose
readability output has 50 < 80 words.  The arbiter returns the readability
object itself — confidence 0.63 after rounding, source `readability` — and
not the unknown-source object with confidence 0.2 the claim demands. -/
theorem claim_C2_counterexample :
    (candidateBlocks (prepareContentSoup NodeList.nil)).length = 0 ∧
    (extractMainContent exRdRaw50).isSome = true ∧
    (extractMainContent exRdRaw50).map RContent.wordCount = some 50 ∧
    (parseHtmlArticle NodeList.nil exRdRaw50 "u").stats.confidence = 63/100 ∧
    ¬(parseHtmlArticle NodeList.nil exRdRaw50 "u").stats.confidence = 1/5 ∧
    (parseHtmlArticle NodeList.nil exRdRaw50 "u").body.source = "readability" := by
  with_unfolding_all decide

/-- C2 amended: with an empty candidate list the arbiter returns the empty
unknown-source object (confidence exactly 0.2) only when the readability
output is empty as well; a non-empty readability output below 80 words is
returned as is.  The structural part holds: when every element of the
document has fewer than 40 visible words, the candidate list is empty. -/
theorem claim_C2_tier3 :
    (∀ fb, chooseMainContent none [] fb = unknownMain fb ∧
      (unknownMain fb).confidence = 1/5) ∧
    (∀ (r : RContent) (fb : String), r.wordCount < 80 →
      chooseMainContent (some r) [] fb = rcontentToMain r) ∧
    (∀ doc : NodeList, (∀ x ∈ allElemsL doc, blockWordCount x < 40) →
      candidateBlocks doc = []) := by
  refine ⟨fun fb => ⟨chooseMain_unknown fb, rfl⟩, ?_, ?_⟩
  · exact fun r fb h => chooseMain_rd_fallback r fb h
  · exact fun doc h => candidateBlocks_nil doc h

/-- Witness for C2 as amended: a concrete 50-word readability record and a
concrete nine-character document. -/
theorem claim_C2_tier3_witness :
    chooseMainContent (some exR50) [] "t" = rcontentToMain exR50 ∧
    candidateBlocks exSmallDoc = [] :=
  ⟨claim_C2_tier3.2.1 exR50 "t" (by decide),
   claim_C2_tier3.2.2 exSmallDoc (by decide)⟩

/-- C3 counterexample: a document with ten forty-word structural candidates
whose first element also answers the schema probe.  The scorer already
returns ten blocks, the schema block is prepended afterwards, and the
candidate list handed to the arbiter holds eleven blocks — more than the
ten the claim allows. -/
theorem claim_C3_counterexample :
    (extractSchemaBlock exDoc11).isSome = true ∧
    (extractContentBlocks exDoc11).length = 10 ∧
    (candidateBlocks exDoc11).length = 11 := by
  with_unfolding_all decide

/-- C3 amended: when the schema strategy yields a block it sits at position
0 of the candidate list handed to the arbiter, without any re-sorting by
score — but it is inserted after the 10-item truncation, so the list holds
at most eleven (not ten) blocks. -/
theorem claim_C3_schema_insertion (doc : NodeList)
    (h : (extractSchemaBlock doc).isSome = true) :
    (candidateBlocks doc).head? = extractSchemaBlock doc ∧
    (candidateBlocks doc).length ≤ 11 := by
  cases hs : extractSchemaBlock doc with
  | none => rw [hs] at h; cases h
  | some sb =>
    simp only [candidateBlocks, hs]
    refine ⟨rfl, ?_⟩
    simp only [List.length_cons]
    have := extractContentBlocks_length doc
    omega

/-- Witness for C3 as amended at the eleven-block document. -/
theorem claim_C3_schema_insertion_witness :
    (candidateBlocks exDoc11).head? = extractSchemaBlock exDoc11 ∧
    (candidateBlocks exDoc11).length ≤ 11 :=
  claim_C3_schema_insertion exDoc11 (by with_unfolding_all decide)

/-- C4: the word-count invariant — an element below 40 visible words never
becomes a block, every built block records at least 40 words, and every
block in the candidate list handed to the arbiter (scorer output and schema
block alike) has word count at least 40. -/
theorem claim_C4_word_count_invariant :
    (∀ (e : Node) (id : String), blockWordCount e < 40 → buildBlockInfo e id = none) ∧
    (∀ (e : Node) (id : String) (b : Block), buildBlockInfo e id = some b →
      40 ≤ b.wordCount) ∧
    (∀ (doc : NodeList) (b : Block), b ∈ candidateBlocks doc → 40 ≤ b.wordCount) := by
  refine ⟨buildBlockInfo_none, fun e id b h => (buildBlockInfo_some e id b h).1, ?_⟩
  intro doc b hb
  obtain ⟨e, id, he⟩ := mem_candidateBlocks doc b hb
  exact (buildBlockInfo_some e id b he).1

/-- Witness for C4 at a nine-character element. -/
theorem claim_C4_word_count_invariant_witness :
    buildBlockInfo exSmallDiv "block_0" = none :=
  claim_C4_word_count_invariant.1 exSmallDiv "block_0" (by decide)

/-- C5 counterexample: a `<nav class="sidebar article-body">` element.  Its
attribute bag contains both a noise keyword (`sidebar`) and an article-hint
keyword (`article`), yet the removal predicate returns true — the tag-name
check precedes the keyword scan, so the hint does not save nav, header,
footer, aside or ARIA-role-flagged elements. -/
theorem claim_C5_counterexample :
    containsAnyKw NOISE_KEYWORDS (attrBag [("class", "sidebar article-body")]) = true ∧
    containsAnyKw ARTICLE_HINTS (attrBag [("class", "sidebar article-body")]) = true ∧
    shouldSkipElement "nav" [("class", "sidebar article-body")] = true := by
  decide

/-- C5 amended: for every element that passes the tag-name and ARIA-role
checks, an attribute bag containing both a noise keyword and an article-hint
keyword makes the removal predicate return false (the hint wins); in
particular a `<div class="sidebar article-body">` is kept. -/
theorem claim_C5_hint_override (tag : String) (attrs : List (String × String))
    (h1 : strMem tag skipTagNames = false)
    (h2 : strMem ⟨lowerCh (attrGetD attrs "role" "").data⟩ skipRoles = false)
    (h3 : containsAnyKw NOISE_KEYWORDS (attrBag attrs) = true)
    (h4 : containsAnyKw ARTICLE_HINTS (attrBag attrs) = true) :
    shouldSkipElement tag attrs = false := by
  simp only [shouldSkipElement]
  rw [if_neg (by simp [h1]), if_neg (by simp [h2])]
  by_cases hv : (collectAttrVals attrs).isEmpty = true
  · rw [if_pos hv]
  · rw [if_neg hv]
    have hb : joinWith [' '] (collectAttrVals attrs) = attrBag attrs := rfl
    rw [hb, if_pos h3, if_pos h4]

/-- Witness for C5 as amended: the div with class "sidebar article-body" is
kept. -/
theorem claim_C5_hint_override_witness :
    shouldSkipElement "div" [("class", "sidebar article-body")] = false :=
  claim_C5_hint_override "div" [("class", "sidebar article-body")]
    (by decide) (by decide) (by decide) (by decide)

/-- C6: with word count, paragraph count and heading fixed, the block score
is monotonically non-increasing in link density, and the penalty saturates
at density 0.9. -/
theorem claim_C6_link_density_monotone (wc pc : Nat) (hd : String) :
    (∀ ld₁ ld₂ : ℚ, ld₁ ≤ ld₂ → scoreBlock wc ld₂ pc hd ≤ scoreBlock wc ld₁ pc hd) ∧
    (∀ ld : ℚ, 9/10 ≤ ld → scoreBlock wc ld pc hd = scoreBlock wc (9/10) pc hd) :=
  ⟨fun ld₁ ld₂ h => scoreBlock_antitone wc pc hd ld₁ ld₂ h,
   fun ld h => scoreBlock_saturates wc pc hd ld h⟩

/-- Witness for C6 at word count 100, three paragraphs, heading present,
densities 1/4 against 1/2 and saturation at 1. -/
theorem claim_C6_link_density_monotone_witness :
    scoreBlock 100 (1/2) 3 "h" ≤ scoreBlock 100 (1/4) 3 "h" ∧
    scoreBlock 100 1 3 "h" = scoreBlock 100 (9/10) 3 "h" :=
  ⟨(claim_C6_link_density_monotone 100 3 "h").1 (1/4) (1/2) (by norm_num),
   (claim_C6_link_density_monotone 100 3 "h").2 1 (by norm_num)⟩

/-- C7: noise-filter idempotence — every element surviving
`_prepare_content_soup` fails the removal predicate, and re-running the
whole filter on its own output changes nothing. -/
theorem claim_C7_idempotence (ns : NodeList) :
    ((allElemsL (prepareContentSoup ns)).all fun n => !shouldSkipN n) = true ∧
    prepareContentSoup (prepareContentSoup ns) = prepareContentSoup ns := by
  constructor
  · rw [List.all_eq_true]
    intro n hn
    simp [prepare_survivors ns n hn]
  · exact prepare_idem ns

/-- C8: the iframe branch of `_extract_article_media` is dead code.  The
soup it probes is the prepared soup, whose first pass decomposed every
`<iframe>`; hence for a concrete document whose only video source is a
page-level iframe, the article's videos list is empty instead of containing
the iframe src as claimed. -/
theorem claim_C8_iframe_dead :
    (∀ ns : NodeList, NodeList.findFirstP iframeSrcPred (prepareContentSoup ns) = none) ∧
    (NodeList.findFirstP iframeSrcPred exIframeDoc).isSome = true ∧
    (parseHtmlArticle exIframeDoc none "https://e.example/a").media.videos = [] := by
  refine ⟨prepare_no_iframe, ?_, ?_⟩ <;> with_unfolding_all decide

/-- C9: cap enforcement — for every document the assembled article holds at
most 5 gallery images, 3 video URLs and 40 in-article links. -/
theorem claim_C9_caps (doc : NodeList) (rdRaw : Option RdRaw) (url : String) :
    (parseHtmlArticle doc rdRaw url).media.gallery.length ≤ 5 ∧
    (parseHtmlArticle doc rdRaw url).media.videos.length ≤ 3 ∧
    (parseHtmlArticle doc rdRaw url).links.length ≤ 40 := by
  rw [parseHtmlArticle_eq, buildArticle_media, buildArticle_links]
  exact ⟨(extractArticleMedia_caps _ _ _ _).1, (extractArticleMedia_caps _ _ _ _).2,
    extractLinksFromMain_cap _ _⟩

/-- C10: implicit confidence bounds — the stats confidence of every parsed
article lies in [0.2, 0.95]; it equals 0.2 only in the empty tier-3 case
(source `unknown`), and a heuristic winner always reports at least 0.4. -/
theorem claim_C10_confidence_bounds (doc : NodeList) (rdRaw : Option RdRaw) (url : String) :
    1/5 ≤ (parseHtmlArticle doc rdRaw url).stats.confidence ∧
    (parseHtmlArticle doc rdRaw url).stats.confidence ≤ 19/20 ∧
    ((parseHtmlArticle doc rdRaw url).stats.confidence = 1/5 →
      (parseHtmlArticle doc rdRaw url).body.source = "unknown") ∧
    ((parseHtmlArticle doc rdRaw url).body.source = "heuristic" →
      2/5 ≤ (parseHtmlArticle doc rdRaw url).stats.confidence) := by
  have hconf : (parseHtmlArticle doc rdRaw url).stats.confidence
      = pyRound2 (chooseMainContent (extractMainContent rdRaw)
          (candidateBlocks (prepareContentSoup doc)) (pageTitle doc)).confidence := by
    rw [parseHtmlArticle_eq, buildArticle_confidence]
  have hsrc : (parseHtmlArticle doc rdRaw url).body.source
      = (chooseMainContent (extractMainContent rdRaw)
          (candidateBlocks (prepareContentSoup doc)) (pageTitle doc)).source := by
    rw [parseHtmlArticle_eq, buildArticle_source]
  rcases chooseMain_cases (extractMainContent rdRaw)
      (candidateBlocks (prepareContentSoup doc)) (pageTitle doc) with
    ⟨r, hr, heq⟩ | ⟨b, hb, heq⟩ | ⟨hrd, hbl, heq⟩
  · -- readability wins: confidence in [0.6, 0.95]
    rw [hconf, hsrc, heq]
    have hrb := rcontent_confidence_bounds rdRaw r hr
    have hlo := pyRound2_ge (rcontentToMain r).confidence 60
      (by push_cast; simp only [rcontentToMain]; linarith [hrb.1])
    have hhi := pyRound2_le (rcontentToMain r).confidence 95
      (by push_cast; simp only [rcontentToMain]; linarith [hrb.2])
    push_cast at hlo hhi
    refine ⟨by linarith, by linarith, fun hc => absurd hc (by intro hc; linarith), ?_⟩
    intro hsrceq
    exact absurd hsrceq (by simp [rcontentToMain])
  · -- a heuristic block wins: confidence in [0.4, 0.85]
    rw [hconf, hsrc, heq]
    obtain ⟨e, id, he⟩ := mem_candidateBlocks _ b hb
    have hscore := (buildBlockInfo_some e id b he).2
    have hcb := heuristic_confidence_bounds b.score hscore
    have hcc : (heuristicMain b (pageTitle doc)).confidence
        = min (85/100) (4/10 + min (b.score / 1500) (45/100)) := by
      simp [heuristicMain]
    have hlo := pyRound2_ge (heuristicMain b (pageTitle doc)).confidence 40
      (by rw [hcc]; push_cast; linarith [hcb.1])
    have hhi := pyRound2_le (heuristicMain b (pageTitle doc)).confidence 85
      (by rw [hcc]; push_cast; linarith [hcb.2])
    push_cast at hlo hhi
    refine ⟨by linarith, by linarith, fun hc => absurd hc (by intro hc; linarith), ?_⟩
    intro _
    linarith
  · -- tier-3 fall-through: confidence exactly 0.2
    rw [hconf, hsrc, heq]
    have hpr : pyRound2 (unknownMain (pageTitle doc)).confidence = 1/5 := by
      have h20 : (unknownMain (pageTitle doc)).confidence * 100 = 20 := by
        simp [unknownMain]
        norm_num
      simp only [pyRound2, h20]
      norm_num [rheInt]
    rw [hpr]
    exact ⟨le_refl _, by norm_num, fun _ => rfl, fun hsrceq =>
      absurd hsrceq (by simp [unknownMain])⟩

/-- Witness for C10 at the empty document with no readability output: the
confidence is exactly 0.2 and the source is `unknown`. -/
theorem claim_C10_confidence_bounds_witness :
    (parseHtmlArticle NodeList.nil none "u").body.source = "unknown" :=
  (claim_C10_confidence_bounds NodeList.nil none "u").2.2.1
    (by with_unfolding_all decide)
